import Mathlib

set_option maxRecDepth 40000

/-!
Verification of the Milan transport-strike calendar generator
(scripts/mit_rss_to_milan_ics.py). Text is modelled as the list of Unicode
code points of a string; all matching, extraction and classification
functions are translated from the Python source.
-/

namespace MilanStrikes

/-- Code points of a string: the representation all matching operates on. -/
def codes (s : String) : List Nat := s.data.map Char.toNat

/-- ASCII lower-casing of one code point, as applied by lower() on the
relevant alphabet. -/
def lowerN (n : Nat) : Nat := if 65 ≤ n ∧ n ≤ 90 then n + 32 else n

/-- ASCII upper-casing of one code point. -/
def upperN (n : Nat) : Nat := if 97 ≤ n ∧ n ≤ 122 then n - 32 else n

/-- Lower-casing of a whole text. -/
def lowerCodes (t : List Nat) : List Nat := t.map lowerN

/-- Upper-casing of a whole text. -/
def upperCodes (t : List Nat) : List Nat := t.map upperN

/-- The string obtained by lower-casing a string (model of str.lower()). -/
def lowerStr (s : String) : String := ⟨s.data.map (fun c => Char.ofNat (lowerN c.toNat))⟩

/-- The string obtained by upper-casing a string (model of str.upper()). -/
def upperStr (s : String) : String := ⟨s.data.map (fun c => Char.ofNat (upperN c.toNat))⟩

/-- startsWithL k t is true when k is an initial segment of t. -/
def startsWithL : List Nat → List Nat → Bool
  | [], _ => true
  | _ :: _, [] => false
  | a :: ks, b :: ts => a == b && startsWithL ks ts

/-- containsL t k is true when k occurs contiguously somewhere in t
(model of the Python substring test k in t). -/
def containsL : List Nat → List Nat → Bool
  | t, k =>
    match t with
    | [] => startsWithL k []
    | _ :: ts => startsWithL k t || containsL ts k

/-- matches_any, from the source: case-insensitive substring test of the
text against each keyword, true on the first hit. -/
def matches_any (text : String) (keywords : List String) : Bool :=
  keywords.any (fun k => containsL (lowerCodes (codes text)) (lowerCodes (codes k)))

/-- DEFAULT_GEO_KEYWORDS, from the source. -/
def DEFAULT_GEO_KEYWORDS : List String :=
  ["MILANO", "MILAN", "MI", "LOMBARDIA", "LOMBARDY", "MONZA", "BRIANZA",
   "LINATE", "MALPENSA", "BERGAMO", "ORIO AL SERIO", "VARESE", "COMO", "PAVIA",
   "CREMONA", "MANTOVA", "LECCO", "SONDRIO", "BRESCIA"]

/-- DEFAULT_NATIONAL_MODE_KEYWORDS, from the source. -/
def DEFAULT_NATIONAL_MODE_KEYWORDS : List String :=
  ["TRASPORTO PUBBLICO LOCALE", "TPL", "AUTOBUS", "BUS", "METRO", "METROPOLITANA", "TRAM",
   "FERROVI", "TRENI", "TRENITALIA", "RFI", "ITALO", "TRENORD",
   "AEREO", "AEROPORT", "ENAV", "HANDLING",
   "AUTOSTRAD", "TAXI"]

/-- should_include, from the source: geographic keyword match, or, when the
include-national flag is set, the literal marker nazionale in the lowered
blob together with a national-mode keyword match. -/
def should_include (entry_blob : String) (geo_kw : List String)
    (include_national : Bool) (nat_mode_kw : List String) : Bool :=
  if matches_any entry_blob geo_kw then true
  else if include_national then
    if containsL (lowerCodes (codes entry_blob)) (codes "nazionale")
        && matches_any entry_blob nat_mode_kw then true
    else false
  else false

/-- A calendar date as carried through the pipeline. -/
structure Date where
  year : Nat
  month : Nat
  day : Nat
deriving DecidableEq, Repr

/-- Gregorian leap-year rule, as used by the datetime library. -/
def isLeap (y : Nat) : Bool := y % 4 == 0 && (y % 100 != 0 || y % 400 == 0)

/-- Number of days of a month in a year. -/
def daysInMonth (y m : Nat) : Nat :=
  if m == 2 then (if isLeap y then 29 else 28)
  else if m == 4 || m == 6 || m == 9 || m == 11 then 30
  else 31

/-- Validity of a date, mirroring construction of a datetime.date value:
year between 1 and 9999, month between 1 and 12, day within the month. -/
def validDate (d : Date) : Bool :=
  1 ≤ d.year && d.year ≤ 9999 && 1 ≤ d.month && d.month ≤ 12
    && 1 ≤ d.day && d.day ≤ daysInMonth d.year d.month

/-- Checked date construction: the invalid case is the caught ValueError. -/
def mkDate (y m d : Nat) : Option Date :=
  if validDate ⟨y, m, d⟩ then some ⟨y, m, d⟩ else none

/-- Strict chronological order on dates. -/
def dateLt (a b : Date) : Bool :=
  a.year < b.year
    || (a.year == b.year
        && (a.month < b.month || (a.month == b.month && a.day < b.day)))

/-- Decimal digit test on a code point. -/
def isDigitN (n : Nat) : Bool := 48 ≤ n && n ≤ 57

/-- Numeric value of a decimal digit code point. -/
def digitVal (n : Nat) : Nat := n - 48

/-- Consume exactly one digit. -/
def numTake1 : List Nat → Option (Nat × List Nat)
  | a :: r => if isDigitN a then some (digitVal a, r) else none
  | [] => none

/-- Consume exactly two digits. -/
def numTake2 : List Nat → Option (Nat × List Nat)
  | a :: b :: r =>
    if isDigitN a && isDigitN b then some (10 * digitVal a + digitVal b, r) else none
  | _ => none

/-- Consume exactly four digits. -/
def numTake4 : List Nat → Option (Nat × List Nat)
  | a :: b :: c :: d :: r =>
    if isDigitN a && isDigitN b && isDigitN c && isDigitN d then
      some (1000 * digitVal a + 100 * digitVal b + 10 * digitVal c + digitVal d, r)
    else none
  | _ => none

/-- Consume one separator: code 47 is the slash, code 45 the hyphen. -/
def sepTake : List Nat → Option (List Nat)
  | c :: r => if c == 47 || c == 45 then some r else none
  | [] => none

/-- Tail of the first date notation after the day and its separator: a
greedy one-or-two digit month (two digits tried first, with backtracking)
followed by a separator and a four-digit year. -/
def pat1M (d : Nat) (cs : List Nat) : Option (Nat × Nat × Nat × List Nat) :=
  (do
    let (m, r) ← numTake2 cs
    let r1 ← sepTake r
    let (y, r2) ← numTake4 r1
    pure (d, m, y, r2))
  <|>
  (do
    let (m, r) ← numTake1 cs
    let r1 ← sepTake r
    let (y, r2) ← numTake4 r1
    pure (d, m, y, r2))

/-- Match of the first date notation (day, month, four-digit year) at the
head of the text, returning the groups and the rest of the text. -/
def pat1At (cs : List Nat) : Option (Nat × Nat × Nat × List Nat) :=
  (do
    let (d, r) ← numTake2 cs
    let r1 ← sepTake r
    pat1M d r1)
  <|>
  (do
    let (d, r) ← numTake1 cs
    let r1 ← sepTake r
    pat1M d r1)

/-- Tail of the second date notation after the year, month and separators:
a greedy one-or-two digit day. -/
def pat2D (y m : Nat) (cs : List Nat) : Option (Nat × Nat × Nat × List Nat) :=
  (do
    let (d, r) ← numTake2 cs
    pure (d, m, y, r))
  <|>
  (do
    let (d, r) ← numTake1 cs
    pure (d, m, y, r))

/-- Match of the second date notation (four-digit year first) at the head
of the text, returning the groups and the rest of the text. -/
def pat2At (cs : List Nat) : Option (Nat × Nat × Nat × List Nat) := do
  let (y, r) ← numTake4 cs
  let r1 ← sepTake r
  ((do
     let (m, r2) ← numTake2 r1
     let r3 ← sepTake r2
     pat2D y m r3)
   <|>
   (do
     let (m, r2) ← numTake1 r1
     let r3 ← sepTake r2
     pat2D y m r3))

/-- Left-to-right scan collecting non-overlapping matches of a pattern,
resuming after each match, as finditer does. The fuel argument only bounds
the recursion; it starts at the text length and every step consumes at
least one code point, so it never runs out before the text does. -/
def runFind (pat : List Nat → Option (Nat × Nat × Nat × List Nat)) :
    Nat → List Nat → List (Nat × Nat × Nat)
  | 0, _ => []
  | _ + 1, [] => []
  | fuel + 1, c :: rest =>
    match pat (c :: rest) with
    | some (d, m, y, r) => (d, m, y) :: runFind pat fuel r
    | none => runFind pat fuel rest

/-- All matches of a pattern over a text. -/
def finditer (pat : List Nat → Option (Nat × Nat × Nat × List Nat))
    (cs : List Nat) : List (Nat × Nat × Nat) :=
  runFind pat cs.length cs

/-- The raw date candidates of a text: the matches of both notations, in
source order, each validated and invalid ones dropped. -/
def dateCandidates (text : String) : List Date :=
  (finditer pat1At (codes text) ++ finditer pat2At (codes text)).filterMap
    (fun t => mkDate t.2.2 t.2.1 t.1)

/-- Insertion of a date into a strictly ascending list, keeping it
strictly ascending and dropping duplicates. -/
def insertDate (d : Date) : List Date → List Date
  | [] => [d]
  | x :: xs =>
    if dateLt d x then d :: x :: xs
    else if d = x then x :: xs
    else x :: insertDate d xs

/-- Strictly ascending deduplicated arrangement of a list of dates, the
value of sorted applied to the set of the list. -/
def sortDedup (l : List Date) : List Date := l.foldr insertDate []

/-- extract_dates, from the source: collect the matches of both date
notations over the text, drop invalid calendar dates, deduplicate and
sort ascending. -/
def extract_dates (text : String) : List Date := sortDedup (dateCandidates text)

/-- Calendar successor of a date, the value of adding one day with the
date library's range check: the rolled-over successor is returned only
while it stays at or below the maximum representable date 9999-12-31;
past it the addition raises OverflowError, modelled as none. -/
def succDate (d : Date) : Option Date :=
  if d.day < daysInMonth d.year d.month then some ⟨d.year, d.month, d.day + 1⟩
  else if d.month < 12 then some ⟨d.year, d.month + 1, 1⟩
  else if d.year + 1 ≤ 9999 then some ⟨d.year + 1, 1, 1⟩
  else none

/-- Smaller of two dates. -/
def dateMin (a b : Date) : Date := if dateLt b a then b else a

/-- Larger of two dates. -/
def dateMax (a b : Date) : Date := if dateLt a b then b else a

/-- choose_event_span, from the source: absent on no dates, otherwise the
earliest date paired with the day after the latest date (the all-day end
marker is exclusive); computing the day after the maximum representable
date raises OverflowError instead of returning. -/
def choose_event_span (dates : List Date) : Except String (Option (Date × Date)) :=
  match dates with
  | [] => .ok none
  | d :: ds =>
    match succDate (ds.foldl dateMax d) with
    | some e => .ok (some (ds.foldl dateMin d, e))
    | none => .error "OverflowError"

/-- detect_scope, from the source: first matching scope marker in the
lowered blob wins, in the fixed order national, regional, province, local. -/
def detect_scope (text : String) : String :=
  let t := lowerCodes (codes text)
  if containsL t (codes "nazionale") then "National / 全国"
  else if containsL t (codes "regionale") then "Regional / 区域"
  else if containsL t (codes "provinc") then "Province / 省级"
  else if containsL t (codes "locale") then "Local / 本地"
  else "Unspecified / 未注明"

/-- detect_mode, from the source: the lowered blob is tested against four
hard-coded keyword groups in the fixed order local public transport, rail,
air, road; if none matches the generic label is returned. -/
def detect_mode (text : String) : String × String :=
  let t := lowerCodes (codes text)
  if ["trasporto pubblico locale", "tpl", "bus", "autobus", "metro",
      "metropolitana", "tram"].any (fun x => containsL t (codes x)) then
    ("Local public transport strike", "城市公共交通罢工")
  else if ["ferrovi", "treni", "trenitalia", "trenord", "rfi",
           "italo"].any (fun x => containsL t (codes x)) then
    ("Rail strike", "铁路罢工")
  else if ["aereo", "aeroport", "enav",
           "handling"].any (fun x => containsL t (codes x)) then
    ("Air transport strike", "航空相关罢工")
  else if ["autostrad", "taxi"].any (fun x => containsL t (codes x)) then
    ("Road transport strike", "公路交通相关罢工")
  else ("Transport strike", "交通罢工")

/-- UTF-8 encoding of one code point. -/
def utf8Bytes (n : Nat) : List Nat :=
  if n < 128 then [n]
  else if n < 2048 then [192 + n / 64, 128 + n % 64]
  else if n < 65536 then [224 + n / 4096, 128 + n / 64 % 64, 128 + n % 64]
  else [240 + n / 262144, 128 + n / 4096 % 64, 128 + n / 64 % 64, 128 + n % 64]

/-- UTF-8 encoding of a text. -/
def encodeUTF8 (t : List Nat) : List Nat := (t.map utf8Bytes).flatten

/-- Reduction of a number to a 32-bit word. -/
def w32 (n : Nat) : Nat := n % 4294967296

/-- Left rotation of a 32-bit word by s positions. -/
def rotl (s x : Nat) : Nat := w32 (x * 2 ^ s + x / 2 ^ (32 - s))

/-- Big-endian four-byte representation of a 32-bit word. -/
def beBytes4 (n : Nat) : List Nat :=
  [n / 16777216 % 256, n / 65536 % 256, n / 256 % 256, n % 256]

/-- Big-endian eight-byte representation of a 64-bit length field. -/
def beBytes8 (n : Nat) : List Nat :=
  [n / 72057594037927936 % 256, n / 281474976710656 % 256,
   n / 1099511627776 % 256, n / 4294967296 % 256,
   n / 16777216 % 256, n / 65536 % 256, n / 256 % 256, n % 256]

/-- SHA-1 padding: a byte 128, zero bytes up to 56 modulo 64, then the
bit length on eight bytes. -/
def sha1Pad (msg : List Nat) : List Nat :=
  msg ++ [128] ++ List.replicate ((119 - msg.length % 64) % 64) 0
      ++ beBytes8 (8 * msg.length)

/-- Split a byte list into chunks of 64; the fuel starts at the length and
each step removes at least one byte, so it never runs out early. -/
def chunks64 : Nat → List Nat → List (List Nat)
  | 0, _ => []
  | _ + 1, [] => []
  | fuel + 1, bs => bs.take 64 :: chunks64 fuel (bs.drop 64)

/-- Sixteen big-endian 32-bit words of a 64-byte chunk. -/
def words16 : List Nat → List Nat
  | b0 :: b1 :: b2 :: b3 :: r =>
    (((b0 * 256 + b1) * 256 + b2) * 256 + b3) :: words16 r
  | _ => []

/-- One step of the SHA-1 message-schedule extension. -/
def extendStep (ws : List Nat) : List Nat :=
  ws ++ [rotl 1 ((ws.getD (ws.length - 3) 0 ^^^ ws.getD (ws.length - 8) 0)
      ^^^ (ws.getD (ws.length - 14) 0 ^^^ ws.getD (ws.length - 16) 0))]

/-- Iterated message-schedule extension. -/
def extendW : List Nat → Nat → List Nat
  | ws, 0 => ws
  | ws, k + 1 => extendW (extendStep ws) k

/-- SHA-1 round function, by round index. -/
def sha1F (i b c d : Nat) : Nat :=
  if i < 20 then (b &&& c) ||| ((b ^^^ 4294967295) &&& d)
  else if i < 40 then (b ^^^ c) ^^^ d
  else if i < 60 then ((b &&& c) ||| (b &&& d)) ||| (c &&& d)
  else (b ^^^ c) ^^^ d

/-- SHA-1 round constant, by round index. -/
def sha1K (i : Nat) : Nat :=
  if i < 20 then 1518500249
  else if i < 40 then 1859775393
  else if i < 60 then 2400959708
  else 3395469782

/-- One SHA-1 compression round. -/
def sha1Round (st : Nat × Nat × Nat × Nat × Nat) (iw : Nat × Nat) :
    Nat × Nat × Nat × Nat × Nat :=
  match st, iw with
  | (a, b, c, d, e), (i, w) =>
    (w32 (rotl 5 a + sha1F i b c d + e + sha1K i + w), a, rotl 30 b, c, d)

/-- SHA-1 compression of one 64-byte block into the running state. -/
def processBlock (h : Nat × Nat × Nat × Nat × Nat) (block : List Nat) :
    Nat × Nat × Nat × Nat × Nat :=
  let ws := extendW (words16 block) 64
  let st := ((List.range 80).zip ws).foldl sha1Round h
  match h, st with
  | (h0, h1, h2, h3, h4), (a, b, c, d, e) =>
    (w32 (h0 + a), w32 (h1 + b), w32 (h2 + c), w32 (h3 + d), w32 (h4 + e))

/-- SHA-1 digest of a byte list, as twenty bytes. -/
def sha1 (msg : List Nat) : List Nat :=
  match (chunks64 (sha1Pad msg).length (sha1Pad msg)).foldl processBlock
      (1732584193, 4023233417, 2562383102, 271733878, 3285377520) with
  | (h0, h1, h2, h3, h4) =>
    beBytes4 h0 ++ beBytes4 h1 ++ beBytes4 h2 ++ beBytes4 h3 ++ beBytes4 h4

/-- Code point of a lower-case hexadecimal digit. -/
def hexDigit (n : Nat) : Nat := if n < 10 then 48 + n else 87 + n

/-- Lower-case hexadecimal string of a byte list. -/
def hexStr (bs : List Nat) : String :=
  ⟨((bs.map (fun b => [hexDigit (b / 16), hexDigit (b % 16)])).flatten).map Char.ofNat⟩

/-- make_uid, from the source: the fixed-prefix identifier built from the
SHA-1 hex digest of the UTF-8 bytes of link, a vertical bar, and title. -/
def make_uid (link title : String) : String :=
  "mit-strike-" ++ hexStr (sha1 (encodeUTF8 (codes (link ++ "|" ++ title)))) ++ "@milan"

/-- A feed entry as the orchestrator reads it: absent text fields are
already normalized to the empty string, the two timestamps are optional
structured dates. -/
structure Entry where
  title : String
  summary : String
  description : String
  link : String
  published : Option Date
  updated : Option Date

/-- An assembled output event record. -/
structure OutputRecord where
  uid : String
  dtstart : Date
  dtend : Date
  modeEn : String
  modeZh : String
  scope : String
  link : String
  title : String

/-- The text blob of an entry: title, summary falling back to description,
and link, joined by newlines. -/
def entryBlob (e : Entry) : String :=
  e.title ++ "\n" ++ (if e.summary == "" then e.description else e.summary)
    ++ "\n" ++ e.link

/-- Per-item pipeline of main, from the source: inclusion test, date
extraction, fallback to the published or else updated timestamp when no
date was extracted, span selection (dropping the item when absent, and
propagating the uncaught overflow of the span arithmetic), classification
and identifier generation. -/
def processEntry (geo_kw nat_mode_kw : List String) (include_national : Bool)
    (e : Entry) : Except String (Option OutputRecord) :=
  let blob := entryBlob e
  if should_include blob geo_kw include_national nat_mode_kw then
    let dates := extract_dates blob
    let dates := if dates.isEmpty then
        match e.published <|> e.updated with
        | some d => [d]
        | none => []
      else dates
    match choose_event_span dates with
    | .error msg => .error msg
    | .ok none => .ok none
    | .ok (some (s, en)) =>
      .ok (some { uid := make_uid e.link e.title, dtstart := s, dtend := en,
                  modeEn := (detect_mode blob).1, modeZh := (detect_mode blob).2,
                  scope := detect_scope blob, link := e.link, title := e.title })
  else .ok none

/-- The record an entry contributes to the output, when it is kept:
absent when the entry is excluded or dropped, and also absent here when
the run aborts with an error. -/
def keptRecord : Except String (Option OutputRecord) → Option OutputRecord
  | .ok (some r) => some r
  | _ => none

/-- The error message of an aborted per-item outcome, if any. -/
def errorOf : Except String (Option OutputRecord) → Option String
  | .error msg => some msg
  | _ => none

/-- Whole-feed pipeline: the output records of the entries, in feed
order, or the error that aborts the run. -/
def runPipeline (geo_kw nat_mode_kw : List String) (include_national : Bool) :
    List Entry → Except String (List OutputRecord)
  | [] => .ok []
  | e :: es =>
    match processEntry geo_kw nat_mode_kw include_national e with
    | .error msg => .error msg
    | .ok none => runPipeline geo_kw nat_mode_kw include_national es
    | .ok (some r) =>
      match runPipeline geo_kw nat_mode_kw include_national es with
      | .error msg => .error msg
      | .ok rs => .ok (r :: rs)

/-! Helper lemmas. -/

theorem toNat_ofNat_small (n : Nat) (h : n < 55296) : (Char.ofNat n).toNat = n := by
  have hv : n.isValidChar := Or.inl h
  rw [Char.ofNat, dif_pos hv]
  simp [Char.ofNatAux, Char.toNat, UInt32.toNat, UInt32.ofNat', BitVec.toNat_ofNatLt]

theorem toNat_ofNat_lowerN (c : Char) : (Char.ofNat (lowerN c.toNat)).toNat = lowerN c.toNat := by
  unfold lowerN
  split
  · next h => exact toNat_ofNat_small _ (by omega)
  · rw [Char.ofNat_toNat]

theorem toNat_ofNat_upperN (c : Char) : (Char.ofNat (upperN c.toNat)).toNat = upperN c.toNat := by
  unfold upperN
  split
  · next h => exact toNat_ofNat_small _ (by omega)
  · rw [Char.ofNat_toNat]

theorem codes_append (s t : String) : codes (s ++ t) = codes s ++ codes t := by
  simp [codes]

theorem codes_lowerStr (s : String) : codes (lowerStr s) = lowerCodes (codes s) := by
  simp only [codes, lowerStr, lowerCodes, List.map_map]
  exact List.map_congr_left (fun c _ => toNat_ofNat_lowerN c)

theorem codes_upperStr (s : String) : codes (upperStr s) = upperCodes (codes s) := by
  simp only [codes, upperStr, upperCodes, List.map_map]
  exact List.map_congr_left (fun c _ => toNat_ofNat_upperN c)

theorem lowerN_upperN (n : Nat) : lowerN (upperN n) = lowerN n := by
  simp only [lowerN, upperN]
  split_ifs <;> omega

theorem lowerN_lowerN (n : Nat) : lowerN (lowerN n) = lowerN n := by
  simp only [lowerN]
  split_ifs <;> omega

theorem lowerCodes_upperCodes (t : List Nat) :
    lowerCodes (upperCodes t) = lowerCodes t := by
  simp only [lowerCodes, upperCodes, List.map_map]
  exact List.map_congr_left (fun n _ => lowerN_upperN n)

theorem lowerCodes_lowerCodes (t : List Nat) :
    lowerCodes (lowerCodes t) = lowerCodes t := by
  simp only [lowerCodes, List.map_map]
  exact List.map_congr_left (fun n _ => lowerN_lowerN n)

theorem startsWithL_nil_iff (k : List Nat) : startsWithL k [] = true ↔ k = [] := by
  cases k <;> simp [startsWithL]

theorem startsWithL_trans {j k t : List Nat} (h1 : startsWithL j k = true)
    (h2 : startsWithL k t = true) : startsWithL j t = true := by
  induction j generalizing k t with
  | nil => simp [startsWithL]
  | cons a js ih =>
    cases k with
    | nil => simp [startsWithL] at h1
    | cons b ks =>
      cases t with
      | nil => simp [startsWithL] at h2
      | cons c ts =>
        simp only [startsWithL, Bool.and_eq_true, beq_iff_eq] at h1 h2 ⊢
        exact ⟨h1.1.trans h2.1, ih h1.2 h2.2⟩

theorem containsL_nil (t : List Nat) : containsL t [] = true := by
  cases t <;> simp [containsL, startsWithL]

theorem containsL_cons {t k : List Nat} (c : Nat) (h : containsL t k = true) :
    containsL (c :: t) k = true := by
  simp only [containsL, Bool.or_eq_true]
  exact Or.inr h

theorem containsL_append_left {t k : List Nat} (s : List Nat)
    (h : containsL t k = true) : containsL (s ++ t) k = true := by
  induction s with
  | nil => exact h
  | cons c cs ih => exact containsL_cons c ih

theorem startsWithL_containsL {k t j : List Nat} (h1 : startsWithL k t = true)
    (h2 : containsL k j = true) : containsL t j = true := by
  induction k generalizing t with
  | nil =>
    have hj : j = [] := by
      cases t with
      | nil => exact (startsWithL_nil_iff j).mp h2
      | cons c ts => exact (startsWithL_nil_iff j).mp h2
    subst hj
    exact containsL_nil t
  | cons a ks ih =>
    cases t with
    | nil => simp [startsWithL] at h1
    | cons b ts =>
      simp only [startsWithL, Bool.and_eq_true, beq_iff_eq] at h1
      simp only [containsL, Bool.or_eq_true] at h2 ⊢
      cases h2 with
      | inl hsw =>
        left
        have : startsWithL (a :: ks) (b :: ts) = true := by
          simp only [startsWithL, Bool.and_eq_true, beq_iff_eq]
          exact h1
        exact startsWithL_trans hsw this
      | inr hc => exact Or.inr (ih h1.2 hc)

theorem containsL_trans {t k j : List Nat} (h1 : containsL t k = true)
    (h2 : containsL k j = true) : containsL t j = true := by
  induction t with
  | nil =>
    have hk : k = [] := (startsWithL_nil_iff k).mp h1
    subst hk
    have hj : j = [] := (startsWithL_nil_iff j).mp h2
    subst hj
    exact containsL_nil []
  | cons c ts ih =>
    simp only [containsL, Bool.or_eq_true] at h1
    cases h1 with
    | inl hsw => exact startsWithL_containsL hsw h2
    | inr hc => exact containsL_cons c (ih hc)

theorem startsWithL_map (f : Nat → Nat) {k t : List Nat}
    (h : startsWithL k t = true) : startsWithL (k.map f) (t.map f) = true := by
  induction k generalizing t with
  | nil => simp [startsWithL]
  | cons a ks ih =>
    cases t with
    | nil => simp [startsWithL] at h
    | cons b ts =>
      simp only [startsWithL, Bool.and_eq_true, beq_iff_eq] at h
      simp only [List.map_cons, startsWithL, Bool.and_eq_true, beq_iff_eq]
      exact ⟨congrArg f h.1, ih h.2⟩

theorem containsL_map (f : Nat → Nat) {t k : List Nat}
    (h : containsL t k = true) : containsL (t.map f) (k.map f) = true := by
  induction t with
  | nil =>
    have hk : k = [] := (startsWithL_nil_iff k).mp h
    subst hk
    exact containsL_nil []
  | cons c ts ih =>
    simp only [containsL, Bool.or_eq_true] at h
    simp only [List.map_cons]
    cases h with
    | inl hsw =>
      simp only [containsL, Bool.or_eq_true]
      exact Or.inl (by simpa using startsWithL_map f hsw)
    | inr hc => exact containsL_cons _ (ih hc)

theorem dateLt_irrefl (a : Date) : dateLt a a = false := by
  simp [dateLt]

theorem dateLt_trans {a b c : Date} (h1 : dateLt a b = true)
    (h2 : dateLt b c = true) : dateLt a c = true := by
  simp only [dateLt, Bool.or_eq_true, Bool.and_eq_true, beq_iff_eq,
    decide_eq_true_eq] at h1 h2 ⊢
  omega

theorem dateLt_total {a b : Date} (h1 : dateLt a b = false) (h2 : a ≠ b) :
    dateLt b a = true := by
  obtain ⟨ay, am, ad⟩ := a
  obtain ⟨by1, bm, bd⟩ := b
  simp only [ne_eq, Date.mk.injEq, not_and] at h2
  simp only [dateLt, Bool.or_eq_false_iff, Bool.and_eq_false_iff,
    Bool.or_eq_true, Bool.and_eq_true, beq_iff_eq, beq_eq_false_iff_ne, ne_eq,
    decide_eq_true_eq, decide_eq_false_iff_not] at h1 ⊢
  by_cases hy : ay = by1
  · by_cases hm : am = bm
    · subst hy; subst hm
      have : ad ≠ bd := fun h => h2 rfl rfl h
      omega
    · subst hy; omega
  · omega

theorem dateLt_notLt_trans {x m f : Date} (h1 : dateLt x m = false)
    (h2 : dateLt m f = false) : dateLt x f = false := by
  simp only [dateLt, Bool.or_eq_false_iff, Bool.and_eq_false_iff,
    beq_eq_false_iff_ne, ne_eq, decide_eq_false_iff_not] at h1 h2 ⊢
  omega

theorem dateLt_of_notLt_of_lt {m s f : Date} (h1 : dateLt m s = false)
    (h2 : dateLt m f = true) : dateLt s f = true := by
  simp only [dateLt, Bool.or_eq_false_iff, Bool.and_eq_false_iff,
    beq_eq_false_iff_ne, ne_eq, decide_eq_false_iff_not, Bool.or_eq_true,
    Bool.and_eq_true, beq_iff_eq, decide_eq_true_eq] at h1 h2 ⊢
  omega

theorem daysInMonth_pos (y m : Nat) : 1 ≤ daysInMonth y m := by
  simp only [daysInMonth]
  split_ifs <;> simp

theorem succDate_lt {d e : Date} (h : succDate d = some e) : dateLt d e = true := by
  unfold succDate at h
  split_ifs at h with h1 h2 h3
  · cases h; simp [dateLt]
  · cases h; simp [dateLt]
  · cases h; simp [dateLt]

theorem succDate_of_valid {d : Date} (hv : validDate d = true)
    (hne : d ≠ ⟨9999, 12, 31⟩) : ∃ e, succDate d = some e := by
  obtain ⟨y, m, dd⟩ := d
  simp only [validDate, Bool.and_eq_true, decide_eq_true_eq] at hv
  obtain ⟨⟨⟨⟨⟨hy1, hy2⟩, hm1⟩, hm2⟩, hd1⟩, hd2⟩ := hv
  unfold succDate
  dsimp only
  split_ifs with h1 h2 h3
  · exact ⟨_, rfl⟩
  · exact ⟨_, rfl⟩
  · exact ⟨_, rfl⟩
  · exfalso
    have hm : m = 12 := by omega
    subst hm
    have hdim : daysInMonth y 12 = 31 := by simp [daysInMonth]
    rw [hdim] at h1 hd2
    have hy : y = 9999 := by omega
    have hdd : dd = 31 := by omega
    subst hy
    subst hdd
    exact hne rfl

theorem mem_insertDate {x d : Date} {l : List Date} :
    x ∈ insertDate d l ↔ x = d ∨ x ∈ l := by
  induction l with
  | nil => simp [insertDate]
  | cons a as ih =>
    simp only [insertDate]
    split_ifs with h1 h2
    · simp [List.mem_cons]
    · subst h2
      simp only [List.mem_cons]
      constructor
      · intro h; exact Or.inr h
      · rintro (h | h)
        · subst h; exact Or.inl rfl
        · exact h
    · simp only [List.mem_cons, ih]
      tauto

theorem pairwise_insertDate {d : Date} {l : List Date}
    (h : l.Pairwise (fun a b => dateLt a b = true)) :
    (insertDate d l).Pairwise (fun a b => dateLt a b = true) := by
  induction l with
  | nil => simp [insertDate]
  | cons a as ih =>
    simp only [insertDate]
    rcases List.pairwise_cons.mp h with ⟨ha, has⟩
    split_ifs with h1 h2
    · refine List.pairwise_cons.mpr ⟨?_, h⟩
      intro x hx
      rcases List.mem_cons.mp hx with hx | hx
      · subst hx; exact h1
      · exact dateLt_trans h1 (ha x hx)
    · exact h
    · refine List.pairwise_cons.mpr ⟨?_, ih has⟩
      intro x hx
      rcases mem_insertDate.mp hx with hx | hx
      · rw [hx]
        have h1f : dateLt d a = false := by simpa using h1
        exact dateLt_total h1f (fun he => h2 he)
      · exact ha x hx

theorem pairwise_sortDedup (l : List Date) :
    (sortDedup l).Pairwise (fun a b => dateLt a b = true) := by
  induction l with
  | nil => simp [sortDedup]
  | cons a as ih => exact pairwise_insertDate ih

theorem mem_sortDedup {x : Date} {l : List Date} :
    x ∈ sortDedup l ↔ x ∈ l := by
  induction l with
  | nil => simp [sortDedup]
  | cons a as ih =>
    show x ∈ insertDate a (sortDedup as) ↔ _
    rw [mem_insertDate, ih]
    simp

theorem foldMin_mem (ds : List Date) (d : Date) :
    ds.foldl dateMin d = d ∨ ds.foldl dateMin d ∈ ds := by
  induction ds generalizing d with
  | nil => exact Or.inl rfl
  | cons a as ih =>
    simp only [List.foldl_cons]
    rcases ih (dateMin d a) with h | h
    · rw [h]
      unfold dateMin
      split_ifs
      · exact Or.inr (List.mem_cons_self a as)
      · exact Or.inl rfl
    · exact Or.inr (List.mem_cons_of_mem a h)

theorem foldMin_le (ds : List Date) (d : Date) :
    ∀ x, (x = d ∨ x ∈ ds) → dateLt x (ds.foldl dateMin d) = false := by
  induction ds generalizing d with
  | nil =>
    rintro x (rfl | hx)
    · exact dateLt_irrefl x
    · simp at hx
  | cons a as ih =>
    have hda : dateLt d (dateMin d a) = false := by
      unfold dateMin
      split_ifs with h
      · cases hd : dateLt d a
        · rfl
        · exact absurd (dateLt_trans hd h) (by simp [dateLt_irrefl])
      · exact dateLt_irrefl d
    have haa : dateLt a (dateMin d a) = false := by
      unfold dateMin
      split_ifs with h
      · exact dateLt_irrefl a
      · simpa using h
    intro x hx
    rcases hx with hx | hx
    · rw [hx]
      exact dateLt_notLt_trans hda (ih (dateMin d a) _ (Or.inl rfl))
    · rcases List.mem_cons.mp hx with hx | hx
      · rw [hx]
        exact dateLt_notLt_trans haa (ih (dateMin d a) _ (Or.inl rfl))
      · exact ih (dateMin d a) x (Or.inr hx)

theorem foldMax_mem (ds : List Date) (d : Date) :
    ds.foldl dateMax d = d ∨ ds.foldl dateMax d ∈ ds := by
  induction ds generalizing d with
  | nil => exact Or.inl rfl
  | cons a as ih =>
    simp only [List.foldl_cons]
    rcases ih (dateMax d a) with h | h
    · rw [h]
      unfold dateMax
      split_ifs
      · exact Or.inr (List.mem_cons_self a as)
      · exact Or.inl rfl
    · exact Or.inr (List.mem_cons_of_mem a h)

theorem foldMax_ge (ds : List Date) (d : Date) :
    ∀ x, (x = d ∨ x ∈ ds) → dateLt (ds.foldl dateMax d) x = false := by
  induction ds generalizing d with
  | nil =>
    rintro x (rfl | hx)
    · exact dateLt_irrefl x
    · simp at hx
  | cons a as ih =>
    have hda : dateLt (dateMax d a) d = false := by
      unfold dateMax
      split_ifs with h
      · cases hd : dateLt a d
        · rfl
        · exact absurd (dateLt_trans h hd) (by simp [dateLt_irrefl])
      · exact dateLt_irrefl d
    have haa : dateLt (dateMax d a) a = false := by
      unfold dateMax
      split_ifs with h
      · exact dateLt_irrefl a
      · simpa using h
    intro x hx
    rcases hx with hx | hx
    · rw [hx]
      exact dateLt_notLt_trans (ih (dateMax d a) _ (Or.inl rfl)) hda
    · rcases List.mem_cons.mp hx with hx | hx
      · rw [hx]
        exact dateLt_notLt_trans (ih (dateMax d a) _ (Or.inl rfl)) haa
      · exact ih (dateMax d a) x (Or.inr hx)

theorem startsWithL_refl (t : List Nat) : startsWithL t t = true := by
  induction t with
  | nil => rfl
  | cons a ts ih => simp [startsWithL, ih]

theorem containsL_refl (t : List Nat) : containsL t t = true := by
  cases t with
  | nil => rfl
  | cons a ts => simp [containsL, startsWithL_refl]

/-! Claim theorems. -/

/-- C1: should_include returns true exactly when a geographic keyword
matches, or the include-national flag is set together with the literal
marker nazionale in the lowered blob and a national-mode keyword match;
in particular the national rail blob is included under the flag with the
default national-mode keywords although no geographic keyword matches. -/
theorem C1_should_include_iff :
    (∀ (blob : String) (geo nat_kw : List String) (flag : Bool),
      should_include blob geo flag nat_kw = true ↔
        (matches_any blob geo = true ∨
          (flag = true
            ∧ containsL (lowerCodes (codes blob)) (codes "nazionale") = true
            ∧ matches_any blob nat_kw = true)))
    ∧ should_include "Sciopero nazionale dei treni" DEFAULT_GEO_KEYWORDS true
        DEFAULT_NATIONAL_MODE_KEYWORDS = true
    ∧ matches_any "Sciopero nazionale dei treni" DEFAULT_GEO_KEYWORDS = false := by
  refine ⟨?_, by decide, by decide⟩
  intro blob geo nat_kw flag
  unfold should_include
  cases hg : matches_any blob geo
  · cases flag
    · simp [hg]
    · cases hn : containsL (lowerCodes (codes blob)) (codes "nazionale") <;>
        cases hm : matches_any blob nat_kw <;> simp [hg, hn, hm]
  · simp [hg]

/-- C8: matches_any is case-insensitive: its value is unchanged when the
text is upper- or lower-cased and when the keywords are upper- or
lower-cased. -/
theorem C8_matches_any_case_insensitive :
    ∀ (text : String) (kws : List String),
      matches_any (upperStr text) kws = matches_any text kws
      ∧ matches_any (lowerStr text) kws = matches_any text kws
      ∧ matches_any text (kws.map upperStr) = matches_any text kws
      ∧ matches_any text (kws.map lowerStr) = matches_any text kws := by
  intro text kws
  have hup : ∀ s : String, lowerCodes (codes (upperStr s)) = lowerCodes (codes s) := by
    intro s; rw [codes_upperStr, lowerCodes_upperCodes]
  have hlo : ∀ s : String, lowerCodes (codes (lowerStr s)) = lowerCodes (codes s) := by
    intro s; rw [codes_lowerStr, lowerCodes_lowerCodes]
  refine ⟨?_, ?_, ?_, ?_⟩
  · simp only [matches_any, hup]
  · simp only [matches_any, hlo]
  · simp only [matches_any, List.any_map]
    congr 1
    funext k
    simp only [Function.comp_apply]
    rw [hup]
  · simp only [matches_any, List.any_map]
    congr 1
    funext k
    simp only [Function.comp_apply]
    rw [hlo]

/-- C9: with the default geographic keywords, which contain the two-letter
entry MI, should_include accepts every blob whose lowered text contains
the letter pair mi, whatever the flag and national-mode keywords; in
particular every entry whose link contains the default feed host is
accepted. -/
theorem C9_default_geo_mi :
    (∀ (blob : String) (flag : Bool) (nat_kw : List String),
      containsL (lowerCodes (codes blob)) (codes "mi") = true →
      should_include blob DEFAULT_GEO_KEYWORDS flag nat_kw = true)
    ∧ (∀ (e : Entry) (flag : Bool) (nat_kw : List String),
      containsL (codes e.link) (codes "scioperi.mit.gov.it") = true →
      should_include (entryBlob e) DEFAULT_GEO_KEYWORDS flag nat_kw = true) := by
  have main : ∀ (blob : String) (flag : Bool) (nat_kw : List String),
      containsL (lowerCodes (codes blob)) (codes "mi") = true →
      should_include blob DEFAULT_GEO_KEYWORDS flag nat_kw = true := by
    intro blob flag nat_kw h
    have hm : matches_any blob DEFAULT_GEO_KEYWORDS = true := by
      unfold matches_any
      apply List.any_eq_true.mpr
      refine ⟨"MI", by simp [DEFAULT_GEO_KEYWORDS], ?_⟩
      have hmi : lowerCodes (codes "MI") = codes "mi" := by decide
      rw [hmi]
      exact h
    unfold should_include
    simp [hm]
  refine ⟨main, ?_⟩
  intro e flag nat_kw h
  apply main
  have hsplit : codes (entryBlob e) =
      codes (e.title ++ "\n" ++ (if e.summary == "" then e.description else e.summary)
        ++ "\n") ++ codes e.link := by
    rw [← codes_append]
    rfl
  have hlink : containsL (codes (entryBlob e)) (codes e.link) = true := by
    rw [hsplit]
    exact containsL_append_left _ (containsL_refl _)
  have hhost : containsL (codes (entryBlob e)) (codes "scioperi.mit.gov.it") = true :=
    containsL_trans hlink h
  have hlow : containsL (lowerCodes (codes (entryBlob e)))
      (lowerCodes (codes "scioperi.mit.gov.it")) = true := containsL_map lowerN hhost
  have hmi : containsL (lowerCodes (codes "scioperi.mit.gov.it")) (codes "mi") = true := by
    decide
  exact containsL_trans hlow hmi

/-- Witness for C9 at a concrete blob and a concrete entry. -/
theorem C9_default_geo_mi_witness :
    should_include "Milano" DEFAULT_GEO_KEYWORDS false [] = true
    ∧ should_include
        (entryBlob ⟨"t", "s", "d", "https://scioperi.mit.gov.it/mit2/public/scioperi/rss",
          none, none⟩) DEFAULT_GEO_KEYWORDS false [] = true :=
  ⟨C9_default_geo_mi.1 "Milano" false [] (by decide),
   C9_default_geo_mi.2
     ⟨"t", "s", "d", "https://scioperi.mit.gov.it/mit2/public/scioperi/rss", none, none⟩
     false [] (by decide)⟩

/-- C2: extract_dates returns exactly the valid calendar dates among the
matches of the two notations, deduplicated and strictly ascending; a text
with 05/03/2024 yields 2024-03-05 through the day-month-year notation
alone, and 2024-03-05 yields the same date through the year-first
notation alone. -/
theorem C2_extract_dates_spec :
    (∀ text : String,
      (extract_dates text).Pairwise (fun a b => dateLt a b = true)
      ∧ ∀ d : Date, d ∈ extract_dates text ↔ d ∈ dateCandidates text)
    ∧ extract_dates "Sciopero 05/03/2024" = [⟨2024, 3, 5⟩]
    ∧ finditer pat2At (codes "Sciopero 05/03/2024") = []
    ∧ extract_dates "2024-03-05" = [⟨2024, 3, 5⟩]
    ∧ finditer pat1At (codes "2024-03-05") = [] := by
  refine ⟨?_, by decide, by decide, by decide, by decide⟩
  intro text
  exact ⟨pairwise_sortDedup _, fun d => mem_sortDedup⟩

/-- C6: every date extract_dates returns is a valid calendar date, so a
pattern match forming an invalid date contributes nothing; on the text
31/02/2024 the first notation does match but the result is empty. -/
theorem C6_extract_dates_valid :
    (∀ (text : String) (d : Date), d ∈ extract_dates text → validDate d = true)
    ∧ extract_dates "31/02/2024" = []
    ∧ finditer pat1At (codes "31/02/2024") = [(31, 2, 2024)] := by
  refine ⟨?_, by decide, by decide⟩
  intro text d hd
  have hmem : d ∈ dateCandidates text := mem_sortDedup.mp hd
  unfold dateCandidates at hmem
  rcases List.mem_filterMap.mp hmem with ⟨t, _, ht⟩
  simp only [mkDate] at ht
  split at ht
  · next hv =>
    cases ht
    exact hv
  · exact absurd ht (by simp)

/-- Witness for C6 at a concrete text and date. -/
theorem C6_extract_dates_valid_witness :
    (⟨2024, 3, 5⟩ : Date) ∈ extract_dates "05/03/2024"
    ∧ validDate ⟨2024, 3, 5⟩ = true :=
  ⟨by decide, C6_extract_dates_valid.1 "05/03/2024" ⟨2024, 3, 5⟩ (by decide)⟩

/-- C3 counterexample: 9999-12-31 is a representable, extractable,
includable date, yet on the non-empty set containing it
choose_event_span raises OverflowError instead of returning the span
the claim asserts for every non-empty date set. -/
theorem C3_choose_event_span_counterexample :
    validDate ⟨9999, 12, 31⟩ = true
    ∧ ([(⟨9999, 12, 31⟩ : Date)] ≠ ([] : List Date))
    ∧ extract_dates "Sciopero Milano 31/12/9999" = [⟨9999, 12, 31⟩]
    ∧ should_include "Sciopero Milano 31/12/9999" DEFAULT_GEO_KEYWORDS false [] = true
    ∧ choose_event_span [⟨9999, 12, 31⟩] = .error "OverflowError" :=
  ⟨by decide, by decide, by decide, by decide, rfl⟩

/-- C3 amended: choose_event_span is absent on the empty list; on a
non-empty list of representable dates not containing the maximum date
9999-12-31 it returns the pair of an earliest member and the day after a
latest member, with the end strictly after the start, while a list whose
latest member is the maximum date raises OverflowError instead; a
singleton whose successor is representable yields the one-day span and
the two-date sample spans to the day after the later date. -/
theorem C3_amended_choose_event_span :
    choose_event_span ([] : List Date) = .ok none
    ∧ (∀ l : List Date, l ≠ [] → (∀ x ∈ l, validDate x = true) →
        (⟨9999, 12, 31⟩ : Date) ∉ l →
        ∃ s m e, choose_event_span l = .ok (some (s, e))
          ∧ s ∈ l ∧ (∀ x ∈ l, dateLt x s = false)
          ∧ m ∈ l ∧ (∀ x ∈ l, dateLt m x = false)
          ∧ succDate m = some e
          ∧ dateLt s e = true)
    ∧ (∀ d e : Date, succDate d = some e →
        choose_event_span [d] = .ok (some (d, e)))
    ∧ choose_event_span [⟨2024, 3, 5⟩, ⟨2024, 3, 7⟩]
        = .ok (some (⟨2024, 3, 5⟩, ⟨2024, 3, 8⟩)) := by
  refine ⟨rfl, ?_, ?_, rfl⟩
  · intro l hl hval hnm
    obtain ⟨d, ds, rfl⟩ : ∃ d ds, l = d :: ds := by
      cases l with
      | nil => exact absurd rfl hl
      | cons d ds => exact ⟨d, ds, rfl⟩
    have hmmem : ds.foldl dateMax d ∈ d :: ds := by
      rcases foldMax_mem ds d with h | h
      · rw [h]; exact List.mem_cons_self _ _
      · exact List.mem_cons_of_mem _ h
    obtain ⟨e, he⟩ := succDate_of_valid (hval _ hmmem) (fun h => hnm (h ▸ hmmem))
    refine ⟨ds.foldl dateMin d, ds.foldl dateMax d, e, ?_, ?_, ?_, hmmem, ?_, he, ?_⟩
    · simp only [choose_event_span, he]
    · rcases foldMin_mem ds d with h | h
      · rw [h]; exact List.mem_cons_self _ _
      · exact List.mem_cons_of_mem _ h
    · intro x hx
      apply foldMin_le
      rcases List.mem_cons.mp hx with h | h
      · exact Or.inl h
      · exact Or.inr h
    · intro x hx
      apply foldMax_ge
      rcases List.mem_cons.mp hx with h | h
      · exact Or.inl h
      · exact Or.inr h
    · have hmm : dateLt (ds.foldl dateMax d) (ds.foldl dateMin d) = false := by
        apply foldMin_le
        rcases foldMax_mem ds d with h | h
        · exact Or.inl h
        · exact Or.inr h
      exact dateLt_of_notLt_of_lt hmm (succDate_lt he)
  · intro d e h
    simp only [choose_event_span, List.foldl_nil, h]

/-- Witness for C3 amended on a concrete unsorted two-date list and a
concrete singleton. -/
theorem C3_amended_choose_event_span_witness :
    (∃ s m e, choose_event_span [⟨2024, 3, 7⟩, ⟨2024, 3, 5⟩] = .ok (some (s, e))
      ∧ s ∈ [(⟨2024, 3, 7⟩ : Date), ⟨2024, 3, 5⟩]
      ∧ (∀ x ∈ [(⟨2024, 3, 7⟩ : Date), ⟨2024, 3, 5⟩], dateLt x s = false)
      ∧ m ∈ [(⟨2024, 3, 7⟩ : Date), ⟨2024, 3, 5⟩]
      ∧ (∀ x ∈ [(⟨2024, 3, 7⟩ : Date), ⟨2024, 3, 5⟩], dateLt m x = false)
      ∧ succDate m = some e
      ∧ dateLt s e = true)
    ∧ choose_event_span [(⟨2024, 1, 1⟩ : Date)] = .ok (some (⟨2024, 1, 1⟩, ⟨2024, 1, 2⟩)) :=
  ⟨C3_amended_choose_event_span.2.1 [⟨2024, 3, 7⟩, ⟨2024, 3, 5⟩]
      (by decide) (by decide) (by decide),
   C3_amended_choose_event_span.2.2.1 ⟨2024, 1, 1⟩ ⟨2024, 1, 2⟩ (by decide)⟩

theorem sha1_length (msg : List Nat) : (sha1 msg).length = 20 := by
  unfold sha1
  rcases hfold : (chunks64 (sha1Pad msg).length (sha1Pad msg)).foldl processBlock
      (1732584193, 4023233417, 2562383102, 271733878, 3285377520) with ⟨a, b, c, d, e⟩
  simp [beBytes4]

theorem string_append_assoc (a b c : String) : (a ++ b) ++ c = a ++ (b ++ c) := by
  apply String.ext
  simp

/-- C5: make_uid is the fixed-prefix identifier around the twenty-byte
SHA-1 hex digest of the UTF-8 encoding of link, a vertical bar, and
title, and is deterministic; the digest agrees with the standard SHA-1
test vector for abc and with a precomputed reference identifier. -/
theorem C5_make_uid_spec :
    (∀ link title : String, make_uid link title =
      "mit-strike-" ++ hexStr (sha1 (encodeUTF8 (codes (link ++ "|" ++ title)))) ++ "@milan")
    ∧ (∀ l1 t1 l2 t2 : String, l1 = l2 → t1 = t2 → make_uid l1 t1 = make_uid l2 t2)
    ∧ (∀ msg : List Nat, (sha1 msg).length = 20)
    ∧ make_uid "https://example.com" "Sciopero"
        = "mit-strike-c16c0d1ed328d6b50d345b1874e82aba0a0e290b@milan"
    ∧ hexStr (sha1 (encodeUTF8 (codes "abc")))
        = "a9993e364706816aba3e25717850c26c9cd0d89d" := by
  refine ⟨fun l t => rfl, ?_, sha1_length, by decide, by decide⟩
  intro l1 t1 l2 t2 h1 h2
  rw [h1, h2]

/-- Witness for the determinism conjunct of C5 at concrete strings. -/
theorem C5_make_uid_spec_witness : make_uid "a" "b" = make_uid "a" "b" :=
  C5_make_uid_spec.2.1 "a" "b" "a" "b" rfl rfl

/-- C10: the pre-hash encoding of make_uid is not injective: moving a
vertical bar between link and title leaves the identifier unchanged, so
the distinct input pairs always collide. -/
theorem C10_make_uid_collision :
    (∀ a b c : String, make_uid (a ++ "|" ++ b) c = make_uid a (b ++ "|" ++ c))
    ∧ make_uid "x|y" "z" = make_uid "x" "y|z"
    ∧ (("x|y", "z") : String × String) ≠ ("x", "y|z")
    ∧ make_uid "x|y" "z" = "mit-strike-90855a78590f6dad8aa894d5b5f3d37ac9bd115b@milan" := by
  refine ⟨?_, by decide, by decide, by decide⟩
  intro a b c
  unfold make_uid
  rw [string_append_assoc ((a ++ "|") ++ b) "|" c,
    string_append_assoc (a ++ "|") b ("|" ++ c), string_append_assoc b "|" c]

/-- C4 counterexample: with the national-mode keyword list overridden to
PIZZA, the blob matches no overridden keyword yet detect_mode still
classifies it as a local public transport strike instead of the generic
label the claim predicts, both directly and through the pipeline. -/
theorem C4_counterexample :
    matches_any "Sciopero autobus Milano" ["PIZZA"] = false
    ∧ (detect_mode "Sciopero autobus Milano").1 = "Local public transport strike"
    ∧ (detect_mode "Sciopero autobus Milano").1 ≠ "Transport strike"
    ∧ ((keptRecord (processEntry DEFAULT_GEO_KEYWORDS ["PIZZA"] true
        ⟨"Sciopero autobus Milano", "", "", "", some ⟨2024, 3, 5⟩, none⟩)).map
          (fun r => r.modeEn)) = some "Local public transport strike" := by
  refine ⟨by decide, by decide, by decide, by decide⟩

/-- C4 amended: mode detection does not read the configured national-mode
keyword set — detect_mode is a function of the text alone, and an entry
accepted under two different national-mode keyword configurations yields
the identical output record. -/
theorem C4_amended_classifier_fixed :
    ∀ (geo kw1 kw2 : List String) (flag : Bool) (e : Entry),
      (keptRecord (processEntry geo kw1 flag e)).isSome = true →
      (keptRecord (processEntry geo kw2 flag e)).isSome = true →
      processEntry geo kw1 flag e = processEntry geo kw2 flag e := by
  intro geo kw1 kw2 flag e h1 h2
  unfold processEntry at h1 h2 ⊢
  by_cases hc1 : should_include (entryBlob e) geo flag kw1 = true
  · by_cases hc2 : should_include (entryBlob e) geo flag kw2 = true
    · rw [if_pos hc1, if_pos hc2]
    · rw [if_neg hc2] at h2
      simp [keptRecord] at h2
  · rw [if_neg hc1] at h1
    simp [keptRecord] at h1

/-- Witness for C4 amended: the same record under the default and an
overridden national-mode keyword list. -/
theorem C4_amended_classifier_fixed_witness :
    processEntry DEFAULT_GEO_KEYWORDS DEFAULT_NATIONAL_MODE_KEYWORDS true
      ⟨"Sciopero autobus Milano", "", "", "", some ⟨2024, 3, 5⟩, none⟩
    = processEntry DEFAULT_GEO_KEYWORDS ["PIZZA"] true
      ⟨"Sciopero autobus Milano", "", "", "", some ⟨2024, 3, 5⟩, none⟩ :=
  C4_amended_classifier_fixed DEFAULT_GEO_KEYWORDS DEFAULT_NATIONAL_MODE_KEYWORDS
    ["PIZZA"] true ⟨"Sciopero autobus Milano", "", "", "", some ⟨2024, 3, 5⟩, none⟩
    (by decide) (by decide)

/-- C7 counterexample: an included entry with no extractable date whose
published timestamp is the maximum representable date 9999-12-31 makes
the program raise OverflowError instead of producing the one-day span
the claim asserts for every fallback timestamp. -/
theorem C7_fallback_timestamp_counterexample :
    should_include (entryBlob ⟨"Sciopero nazionale dei treni", "", "", "",
        some ⟨9999, 12, 31⟩, none⟩) DEFAULT_GEO_KEYWORDS true
        DEFAULT_NATIONAL_MODE_KEYWORDS = true
    ∧ extract_dates (entryBlob ⟨"Sciopero nazionale dei treni", "", "", "",
        some ⟨9999, 12, 31⟩, none⟩) = []
    ∧ errorOf (processEntry DEFAULT_GEO_KEYWORDS DEFAULT_NATIONAL_MODE_KEYWORDS true
        ⟨"Sciopero nazionale dei treni", "", "", "", some ⟨9999, 12, 31⟩, none⟩)
        = some "OverflowError" :=
  ⟨by decide, by decide, by decide⟩

/-- C7 amended: an included entry whose blob yields no extracted dates
falls back to the published or else updated timestamp as a single-date
candidate; when the day after that timestamp is representable this
produces the one-day span, while at the maximum date 9999-12-31 the
program raises OverflowError instead; when neither timestamp exists the
entry is silently dropped (no record, no error). -/
theorem C7_amended_fallback :
    ∀ (geo nat_kw : List String) (flag : Bool) (e : Entry),
      should_include (entryBlob e) geo flag nat_kw = true →
      extract_dates (entryBlob e) = [] →
      ((∀ d e1 : Date, (e.published <|> e.updated) = some d →
          succDate d = some e1 →
          ∃ r, processEntry geo nat_kw flag e = .ok (some r)
            ∧ r.dtstart = d ∧ r.dtend = e1)
       ∧ (∀ d : Date, (e.published <|> e.updated) = some d →
          succDate d = none →
          processEntry geo nat_kw flag e = .error "OverflowError")
       ∧ ((e.published <|> e.updated) = none →
          processEntry geo nat_kw flag e = .ok none)) := by
  intro geo nat_kw flag e hinc hdates
  refine ⟨?_, ?_, ?_⟩
  · intro d e1 hd hs
    have hpe : processEntry geo nat_kw flag e = .ok (some
        { uid := make_uid e.link e.title, dtstart := d, dtend := e1,
          modeEn := (detect_mode (entryBlob e)).1,
          modeZh := (detect_mode (entryBlob e)).2,
          scope := detect_scope (entryBlob e), link := e.link, title := e.title }) := by
      simp [processEntry, hinc, hdates, hd, choose_event_span, hs]
    exact ⟨_, hpe, rfl, rfl⟩
  · intro d hd hs
    simp [processEntry, hinc, hdates, hd, choose_event_span, hs]
  · intro hnone
    simp [processEntry, hinc, hdates, hnone, choose_event_span]

/-- Witness for C7 amended: one entry with a representable published
timestamp, one with the maximum-date timestamp, and one with no
timestamp at all. -/
theorem C7_amended_fallback_witness :
    (∃ r, processEntry DEFAULT_GEO_KEYWORDS DEFAULT_NATIONAL_MODE_KEYWORDS true
        ⟨"Sciopero nazionale dei treni", "", "", "", some ⟨2024, 3, 5⟩, none⟩
        = .ok (some r)
      ∧ r.dtstart = ⟨2024, 3, 5⟩ ∧ r.dtend = ⟨2024, 3, 6⟩)
    ∧ processEntry DEFAULT_GEO_KEYWORDS DEFAULT_NATIONAL_MODE_KEYWORDS true
        ⟨"Sciopero nazionale dei treni", "", "", "", some ⟨9999, 12, 31⟩, none⟩
        = .error "OverflowError"
    ∧ processEntry DEFAULT_GEO_KEYWORDS DEFAULT_NATIONAL_MODE_KEYWORDS true
        ⟨"Sciopero nazionale dei treni", "", "", "", none, none⟩ = .ok none :=
  ⟨(C7_amended_fallback DEFAULT_GEO_KEYWORDS DEFAULT_NATIONAL_MODE_KEYWORDS true
      ⟨"Sciopero nazionale dei treni", "", "", "", some ⟨2024, 3, 5⟩, none⟩
      (by decide) (by decide)).1 ⟨2024, 3, 5⟩ ⟨2024, 3, 6⟩ rfl (by decide),
   (C7_amended_fallback DEFAULT_GEO_KEYWORDS DEFAULT_NATIONAL_MODE_KEYWORDS true
      ⟨"Sciopero nazionale dei treni", "", "", "", some ⟨9999, 12, 31⟩, none⟩
      (by decide) (by decide)).2.1 ⟨9999, 12, 31⟩ rfl (by decide),
   (C7_amended_fallback DEFAULT_GEO_KEYWORDS DEFAULT_NATIONAL_MODE_KEYWORDS true
      ⟨"Sciopero nazionale dei treni", "", "", "", none, none⟩
      (by decide) (by decide)).2.2 rfl⟩

end MilanStrikes
